import Mathlib

/-!
Shallow embedding of the car-inventory backend core
(`src/services/car.service.ts`, `src/models/Car.ts`,
`src/middlewares/upload.middleware.ts`).

Conventions of the embedding:
* Mongo documents are records in a `List Car` store; `_id` is a `Nat`.
* `new Date()` readings are explicit `Nat` parameters (epoch milliseconds),
  one per call site in source order; the wall clock is assumed non-decreasing,
  so theorems carry monotonicity hypotheses between successive readings.
* Operations that `throw new Error(...)` return `Except String`.
* File-system side effects (`deleteFile` calls) are recorded as a list of
  attempted asset identifiers in the operation result.
* JavaScript string/number truthiness at the few relevant sites is made
  explicit (`optStr`, `optAnio`).
-/

/-!  ASCII model of case-insensitive matching.  The service builds
`new RegExp(term, 'i')` and Mongo `$regex`-with-`$options: 'i'` clauses; the
model covers the regex fragment in which every pattern character is either a
literal or the wildcard `.` - faithful to JavaScript for patterns whose
characters are alphanumeric, spaces or `.`.  Case folding is ASCII `A`-`Z`. -/

def lowerChar (ch : Char) : Char :=
  if 'A' ≤ ch ∧ ch ≤ 'Z' then Char.ofNat (ch.toNat + 32) else ch

/-- One pattern token against one subject character: `.` is a wildcard,
anything else compares case-insensitively. -/
def tokMatch (pc tc : Char) : Bool :=
  pc == '.' || lowerChar pc == lowerChar tc

/-- Match the whole pattern at the start of the subject. -/
def matchHere : List Char → List Char → Bool
  | [], _ => true
  | _ :: _, [] => false
  | pc :: ps, tc :: ts => tokMatch pc tc && matchHere ps ts

/-- Unanchored search, as `RegExp.prototype.test` performs: try every start
position. -/
def reSearch (p : List Char) : List Char → Bool
  | [] => matchHere p []
  | tc :: ts => matchHere p (tc :: ts) || reSearch p ts

/-- `regex.test(s)` for `regex = new RegExp(pat, 'i')`, in the modelled
fragment. -/
def reTest (pat s : String) : Bool := reSearch pat.data s.data

/-! ## Data model (`src/models/Car.ts`) -/

/-- The `Car` document.  `anio` transliterates the source field name with the
letter n-tilde; dates are epoch milliseconds; `fechaEliminacion = none`
models the schema default `null`. -/
structure Car where
  id : Nat
  marca : String
  modelo : String
  anio : Int
  precio : Int
  kilometraje : Int
  color : Option String
  email : String
  telefono : String
  foto : Option String
  fechaAlta : Nat
  fechaModificacion : Nat
  fechaEliminacion : Option Nat
  isDeleted : Bool
  createdBy : Option String
deriving DecidableEq

/-- JavaScript truthiness of an optional string: `undefined` and `""` are
falsy. -/
def optStr : Option String → Option String
  | some s => if s = "" then none else some s
  | none => none

/-- JavaScript truthiness of the optional `anio` number: `undefined` and `0`
are falsy (the source guards it with a bare `if (anio)`). -/
def optAnio : Option Int → Option Int
  | some n => if n = 0 then none else some n
  | none => none

/-! ## Query builder and pagination (`CarService.getAllCars`) -/

/-- `CarFilters` from `src/types`; `none` models an absent (`undefined`)
query parameter. -/
structure CarFilters where
  marca : Option String := none
  modelo : Option String := none
  anio : Option Int := none
  minPrecio : Option Int := none
  maxPrecio : Option Int := none
  color : Option String := none
  page : Option Nat := none
  limit : Option Nat := none
  sortBy : Option String := none
  sortOrder : Option String := none

/-- The Mongo predicate the service builds: base clause `isDeleted: false`,
then one AND-ed clause per present (truthy) filter.  String filters are
`$regex` with option `i`; `anio` is equality; the price clauses are the
inclusive `$gte` and `$lte` bounds. -/
def matchesQuery (f : CarFilters) (c : Car) : Bool :=
  !c.isDeleted
  && (match optStr f.marca with
      | some m => reTest m c.marca
      | none => true)
  && (match optStr f.modelo with
      | some m => reTest m c.modelo
      | none => true)
  && (match optAnio f.anio with
      | some y => c.anio == y
      | none => true)
  && (match f.minPrecio with
      | some a => decide (a ≤ c.precio)
      | none => true)
  && (match f.maxPrecio with
      | some b => decide (c.precio ≤ b)
      | none => true)
  && (match optStr f.color with
      | some m =>
        match c.color with
        | some col => reTest m col
        | none => false
      | none => true)

/-- Sort key for a `sortBy` field name (the fields the schema indexes and the
controller exposes); an unknown field sorts as a constant. -/
def sortKeyVal (field : String) (c : Car) : Int :=
  if field = "precio" then c.precio
  else if field = "kilometraje" then c.kilometraje
  else if field = "anio" then c.anio
  else if field = "fechaAlta" then (c.fechaAlta : Int)
  else if field = "fechaModificacion" then (c.fechaModificacion : Int)
  else 0

/-- `sort[sortBy] = sortOrder === 'asc' ? 1 : -1`. -/
def carLe (field ord : String) (a b : Car) : Bool :=
  if ord = "asc" then decide (sortKeyVal field a ≤ sortKeyVal field b)
  else decide (sortKeyVal field b ≤ sortKeyVal field a)

/-- Insert into a sorted list (model of the sorted stream the store
returns). -/
def insertCar (le : Car → Car → Bool) (c : Car) : List Car → List Car
  | [] => [c]
  | d :: ds => if le c d then c :: d :: ds else d :: insertCar le c ds

/-- Deterministic sort of the matching records. -/
def sortCars (le : Car → Car → Bool) : List Car → List Car
  | [] => []
  | c :: cs => insertCar le c (sortCars le cs)

structure Pagination where
  page : Nat
  limit : Nat
  total : Nat
  totalPages : Nat
deriving DecidableEq

structure PaginatedCars where
  data : List Car
  pagination : Pagination
deriving DecidableEq

/-- `CarService.getAllCars`: build the query, compute
`skip = (page - 1) * limit`, fetch the sorted window, count the matching
records with the same query, and return `{page, limit, total, totalPages}`
with `totalPages = Math.ceil(total / limit)` (written here as the natural
ceiling-division formula; the model covers `limit ≥ 1`). -/
def getAllCars (f : CarFilters) (store : List Car) : PaginatedCars :=
  let page := f.page.getD 1
  let limit := f.limit.getD 10
  let matching := store.filter (matchesQuery f)
  let sorted := sortCars (carLe (f.sortBy.getD "fechaAlta") (f.sortOrder.getD "desc")) matching
  let skip := (page - 1) * limit
  { data := (sorted.drop skip).take limit
    pagination :=
      { page := page
        limit := limit
        total := matching.length
        totalPages := (matching.length + limit - 1) / limit } }

/-! ## Lifecycle operations -/

deriving instance DecidableEq for Except

def notFoundMsg : String := "Auto no encontrado"

/-- `Car.findOne({ _id: id, isDeleted: false })`. -/
def findActive (id : Nat) (store : List Car) : Option Car :=
  store.find? fun c => c.id == id && !c.isDeleted

/-- `CarService.getCarById`: throws `Auto no encontrado` when no active
record has the id. -/
def getCarById (id : Nat) (store : List Car) : Except String Car :=
  match findActive id store with
  | some c => .ok c
  | none => .error notFoundMsg

/-- `CreateCarDTO` from `src/types` (fields `marca` .. `foto`), extended with
the lifecycle fields a raw, unvalidated request body may carry at runtime:
the controller casts `req.body` to the DTO without stripping unknown keys,
and the service spreads it with `{...data, ...}`, so such keys reach the
model constructor.  `none` in an extra field means the key is absent. -/
structure CreateCarDTO where
  marca : String
  modelo : String
  anio : Int
  precio : Int
  kilometraje : Int
  color : Option String := none
  email : String
  telefono : String
  foto : Option String := none
  isDeleted : Option Bool := none
  fechaAlta : Option Nat := none
  fechaModificacion : Option Nat := none
  fechaEliminacion : Option Nat := none

/-- `CarService.createCar`.  The spread `{...data}` comes first and the
server stamps `fechaAlta`, `fechaModificacion` and `isDeleted` after it, so
those three always take the stamped values; `fechaEliminacion` is not
re-stamped, so a value carried by the input survives (schema default `null`
when absent).  `createdBy` is set only for a truthy `userId`.  `tAlta` and
`tMod` are the two `new Date()` readings in source order; the save of a new
document does not trigger the pre-save re-stamp (`isNew`). -/
def createCar (data : CreateCarDTO) (userId : Option String)
    (tAlta tMod : Nat) (newId : Nat) (store : List Car) : Car × List Car :=
  let car : Car :=
    { id := newId
      marca := data.marca
      modelo := data.modelo
      anio := data.anio
      precio := data.precio
      kilometraje := data.kilometraje
      color := data.color
      email := data.email
      telefono := data.telefono
      foto := data.foto
      fechaAlta := tAlta
      fechaModificacion := tMod
      fechaEliminacion := data.fechaEliminacion
      isDeleted := false
      createdBy := optStr userId }
  (car, store ++ [car])

/-- `UpdateCarDTO = Partial<CreateCarDTO>`: `none` is an absent key. -/
structure UpdateCarDTO where
  marca : Option String := none
  modelo : Option String := none
  anio : Option Int := none
  precio : Option Int := none
  kilometraje : Option Int := none
  color : Option String := none
  email : Option String := none
  telefono : Option String := none
  foto : Option String := none

/-- `Object.assign(car, data)`: present keys overwrite, absent keys keep the
prior value. -/
def applyAssign (c : Car) (d : UpdateCarDTO) : Car :=
  { c with
    marca := d.marca.getD c.marca
    modelo := d.modelo.getD c.modelo
    anio := d.anio.getD c.anio
    precio := d.precio.getD c.precio
    kilometraje := d.kilometraje.getD c.kilometraje
    color := match d.color with | some s => some s | none => c.color
    email := d.email.getD c.email
    telefono := d.telefono.getD c.telefono
    foto := match d.foto with | some s => some s | none => c.foto }

/-- `document.save()` persists the document under its `_id`. -/
def replaceById (store : List Car) (upd : Car) : List Car :=
  store.map fun c => if c.id = upd.id then upd else c

/-- Result of a mutating operation: the document the service returns, the
store afterwards, and the asset identifiers a `deleteFile` call was attempted
on. -/
structure MutOutcome where
  car : Car
  store : List Car
  attempts : List String
deriving DecidableEq

/-- `CarService.updateCar`.  Finds the active record; when the incoming
`foto` and the stored `foto` are both truthy and differ, attempts
`deleteFile` on the old one inside `try { } catch { log }` - `deleteOk`
says whether that call succeeds, and by the catch the rest never depends on
it.  Then `Object.assign`, the `fechaModificacion = new Date()` stamp
(`tUpd`), and the pre-save hook re-stamp (`tSave`, the last reading, which is
what persists). -/
def updateCar (id : Nat) (d : UpdateCarDTO) (tUpd tSave : Nat)
    (deleteOk : Bool) (store : List Car) : Except String MutOutcome :=
  match findActive id store with
  | none => .error notFoundMsg
  | some car =>
    let attempts :=
      match optStr d.foto, optStr car.foto with
      | some nf, some oldf => if nf ≠ oldf then [oldf] else []
      | _, _ => []
    let _ := deleteOk
    let car1 := applyAssign car d
    let car2 := { car1 with fechaModificacion := tUpd }
    let car3 := { car2 with fechaModificacion := tSave }
    .ok { car := car3, store := replaceById store car3, attempts := attempts }

/-- `CarService.deleteCar` (soft delete).  Finds the active record, stamps
`isDeleted = true`, `fechaEliminacion = new Date()` (`tDel`),
`fechaModificacion = new Date()` (`tMod`), saves - the pre-save hook
re-stamps `fechaModificacion` once more (`tSave`).  No `deleteFile` call
occurs in this path. -/
def deleteCar (id : Nat) (tDel tMod tSave : Nat) (store : List Car) :
    Except String MutOutcome :=
  match findActive id store with
  | none => .error notFoundMsg
  | some car =>
    let car1 := { car with
      isDeleted := true
      fechaEliminacion := some tDel
      fechaModificacion := tMod }
    let car2 := { car1 with fechaModificacion := tSave }
    .ok { car := car2, store := replaceById store car2, attempts := [] }

/-- `CarService.hardDeleteCar`: finds by id regardless of `isDeleted`,
attempts `deleteFile` on a truthy `foto`, removes the document. -/
def hardDeleteCar (id : Nat) (store : List Car) :
    Except String (List Car × List String) :=
  match store.find? (fun c => c.id == id) with
  | none => .error notFoundMsg
  | some car =>
    let attempts := match optStr car.foto with | some f => [f] | none => []
    .ok (store.filter (fun c => !(c.id == id)), attempts)

/-! ## Statistics (`CarService.getStats`) -/

structure Stats where
  total : Nat
  deleted : Nat
  active : Nat
  averagePrice : ℚ
  averageKm : ℚ
deriving DecidableEq

/-- `getStats`: `countDocuments({})`, `countDocuments({isDeleted: true})`,
`total - deleted`, and the `$avg` aggregation over `isDeleted: false`
documents, which yields no group when no document matches - the
`stats[0]?.avgPrice || 0` access then gives `0`. -/
def getStats (store : List Car) : Stats :=
  let actives := store.filter fun c => !c.isDeleted
  { total := store.length
    deleted := (store.filter fun c => c.isDeleted).length
    active := store.length - (store.filter fun c => c.isDeleted).length
    averagePrice :=
      if actives.length = 0 then 0
      else (actives.map fun c => (c.precio : ℚ)).sum / actives.length
    averageKm :=
      if actives.length = 0 then 0
      else (actives.map fun c => (c.kilometraje : ℚ)).sum / actives.length }

/-! ## Search (`CarService.searchCars`) -/

/-- The `$or` clause over `marca`, `modelo`, `color` with
`new RegExp(searchTerm, 'i')`; a document without a `color` field does not
satisfy the `color` branch. -/
def searchMatch (term : String) (c : Car) : Bool :=
  reTest term c.marca || reTest term c.modelo ||
    (match c.color with | some col => reTest term col | none => false)

/-- `searchCars`: active records matching the regex `$or`, sorted by
`fechaAlta` descending, capped at 20. -/
def searchCars (term : String) (store : List Car) : List Car :=
  (sortCars (carLe "fechaAlta" "desc")
    (store.filter fun c => !c.isDeleted && searchMatch term c)).take 20

/-- Case-insensitive substring containment - the matching relation the spec
describes for Search (spec words, for the refinement comparison with the
regex-based `searchCars`). -/
def substrCI (pat s : String) : Bool :=
  decide ((pat.data.map lowerChar) <:+: (s.data.map lowerChar))

/-- The Search result as the spec describes it: active records whose brand,
model or color contains the term as a case-insensitive substring,
OR-combined, creation time descending, capped at 20. -/
def searchSpecList (term : String) (store : List Car) : List Car :=
  (sortCars (carLe "fechaAlta" "desc")
    (store.filter fun c => !c.isDeleted &&
      (substrCI term c.marca || substrCI term c.modelo ||
        (match c.color with | some col => substrCI term col | none => false)))).take 20

/-! ## Asset path resolution (`deleteFile` in `upload.middleware.ts`)

Paths are modelled as `List Char`; `/` is the separator; all paths in play
are absolute.  `path.join` followed by `path.normalize` is modelled as
segment-level normalization (`.` and empty segments dropped, `..` pops). -/

/-- Split on `/`. -/
def splitSlash : List Char → List (List Char)
  | [] => [[]]
  | ch :: rest =>
    let r := splitSlash rest
    if ch = '/' then [] :: r
    else
      match r with
      | s :: ss => (ch :: s) :: ss
      | [] => [[ch]]

/-- One step of absolute-path normalization over a segment stack. -/
def segStep (stack : List (List Char)) (seg : List Char) : List (List Char) :=
  if seg = [] ∨ seg = ['.'] then stack
  else if seg = ['.', '.'] then stack.dropLast
  else stack ++ [seg]

def normSegs (segs : List (List Char)) : List (List Char) :=
  segs.foldl segStep []

/-- Concatenate segments, each preceded by `/`. -/
def renderSegs (segs : List (List Char)) : List Char :=
  segs.foldl (fun acc s => acc ++ '/' :: s) []

/-- Render an absolute path from normalized segments; no segments is the
root `/`. -/
def renderAbs (segs : List (List Char)) : List Char :=
  if segs = [] then ['/'] else renderSegs segs

/-- `path.basename`: the last non-empty `/`-separated component (so trailing
separators are ignored), empty for a separator-only path. -/
def basenameL (p : List Char) : List Char :=
  (((splitSlash p).filter fun s => decide (s ≠ [])).getLast?).getD []

/-- `path.join(root, name)` - node normalizes while joining, and the
subsequent `path.normalize` is idempotent on the result. -/
def joinNorm (root name : List Char) : List Char :=
  renderAbs (normSegs (splitSlash (root ++ '/' :: name)))

/-- `deleteFile(filePath)` resolution: reduce to `path.basename`, join under
the uploads root, and keep only a resolved path that starts with the root -
`some target` is a deletion attempt on `target` (the `fs.unlinkSync`
argument), `none` is the `Invalid file path` rejection. -/
def deleteFile (root id : List Char) : Option (List Char) :=
  let safe := basenameL id
  let full := joinNorm root safe
  if root.isPrefixOf full then some full else none

/-- An ordinary path segment: non-empty, not a dot segment, no separator
inside. -/
def ordinarySeg (s : List Char) : Prop :=
  s ≠ [] ∧ s ≠ ['.'] ∧ s ≠ ['.', '.'] ∧ '/' ∉ s

instance (s : List Char) : Decidable (ordinarySeg s) :=
  inferInstanceAs (Decidable (_ ∧ _ ∧ _ ∧ _))

/-! ## Store well-formedness and concrete fixtures -/

/-- Mongo `_id` values are unique across the collection. -/
def uniqueIds (store : List Car) : Prop :=
  (store.map Car.id).Nodup

instance (store : List Car) : Decidable (uniqueIds store) :=
  inferInstanceAs (Decidable ((store.map Car.id).Nodup))

/-- A concrete active record used by the concrete instantiations. -/
def baseCar : Car :=
  { id := 1
    marca := "Honda"
    modelo := "Civic"
    anio := 2020
    precio := 250000
    kilometraje := 15000
    color := some "Rojo"
    email := "e@x.com"
    telefono := "1234567890"
    foto := none
    fechaAlta := 0
    fechaModificacion := 0
    fechaEliminacion := none
    isDeleted := false
    createdBy := none }

/-- A concrete `CreateCarDTO` with no extra lifecycle keys. -/
def baseDTO : CreateCarDTO :=
  { marca := "Toyota"
    modelo := "Corolla"
    anio := 2020
    precio := 250000
    kilometraje := 15000
    email := "e@x.com"
    telefono := "1234567890" }

/-- A soft-deleted concrete record. -/
def c1DeletedCar : Car :=
  { baseCar with isDeleted := true, fechaEliminacion := some 5 }

/-- `baseCar` after `deleteCar` with all three clock readings at `0`. -/
def c2Deleted : Car :=
  { baseCar with isDeleted := true, fechaEliminacion := some 0 }

def c2Outcome : MutOutcome :=
  { car := c2Deleted, store := [c2Deleted], attempts := [] }

/-- An active record holding a photo. -/
def c3PhotoCar : Car := { baseCar with foto := some "a.jpg" }

def c3Deleted : Car :=
  { c3PhotoCar with isDeleted := true, fechaEliminacion := some 0 }

def c3Outcome : MutOutcome :=
  { car := c3Deleted, store := [c3Deleted], attempts := [] }

/-- Two further active records with distinct ids and creation times. -/
def carB : Car :=
  { baseCar with id := 2, precio := 280000, fechaAlta := 10, fechaModificacion := 10 }

def carC : Car :=
  { baseCar with
    id := 3, marca := "Ford", modelo := "Focus", precio := 300000,
    fechaAlta := 20, fechaModificacion := 20 }

def c4Filters : CarFilters := { page := some 1, limit := some 2 }

def c4Store : List Car := [baseCar, carB, carC]

def c5Filters : CarFilters :=
  { minPrecio := some 250000, maxPrecio := some 280000 }

/-- Record without a `color` field. -/
def c6Car : Car := { baseCar with color := none }

def c8DTO : UpdateCarDTO := { foto := some "b.jpg" }

/-- `c3PhotoCar` after `updateCar` with `c8DTO` and save re-stamp at `2`. -/
def c8Updated : Car :=
  { baseCar with foto := some "b.jpg", fechaModificacion := 2 }

def c8Outcome : MutOutcome :=
  { car := c8Updated, store := [c8Updated], attempts := ["a.jpg"] }

/-- A raw creation body carrying lifecycle keys past the validator. -/
def c9BadDTO : CreateCarDTO :=
  { baseDTO with
    isDeleted := some true, fechaAlta := some 99,
    fechaModificacion := some 98, fechaEliminacion := some 7 }

/-- Segment form of the uploads root `/app/uploads`. -/
def c10Root : List (List Char) := ["app".data, "uploads".data]

/-! ## Helper lemmas -/

theorem mem_insertCar {le : Car → Car → Bool} {c x : Car} {l : List Car} :
    x ∈ insertCar le c l ↔ x = c ∨ x ∈ l := by
  induction l with
  | nil => simp [insertCar]
  | cons d ds ih =>
    simp only [insertCar]
    split
    · simp [or_comm, or_left_comm, List.mem_cons]
    · simp only [List.mem_cons, ih]
      tauto

theorem mem_sortCars {le : Car → Car → Bool} {x : Car} {l : List Car} :
    x ∈ sortCars le l ↔ x ∈ l := by
  induction l with
  | nil => simp [sortCars]
  | cons c cs ih => simp [sortCars, mem_insertCar, ih]

theorem uniqueIds_inj {store : List Car} (hu : uniqueIds store) {c d : Car}
    (hc : c ∈ store) (hd : d ∈ store) (h : c.id = d.id) : c = d :=
  List.inj_on_of_nodup_map hu hc hd h

theorem findActive_eq_none {store : List Car} {c : Car} (hu : uniqueIds store)
    (hc : c ∈ store) (hdel : c.isDeleted = true) :
    findActive c.id store = none := by
  unfold findActive
  rw [List.find?_eq_none]
  intro d hd hpred
  rw [Bool.and_eq_true, beq_iff_eq, Bool.not_eq_true'] at hpred
  have : d = c := uniqueIds_inj hu hd hc hpred.1
  rw [this, hdel] at hpred
  exact absurd hpred.2 (by simp)

theorem findActive_eq_some {store : List Car} {c : Car} (hu : uniqueIds store)
    (hc : c ∈ store) (hact : c.isDeleted = false) :
    findActive c.id store = some c := by
  unfold findActive
  have hsome : (store.find? fun d => d.id == c.id && !d.isDeleted).isSome := by
    rw [List.find?_isSome]
    exact ⟨c, hc, by simp [hact]⟩
  obtain ⟨d, hd⟩ := Option.isSome_iff_exists.mp hsome
  have hdmem := List.mem_of_find?_eq_some hd
  have hdp := List.find?_some hd
  rw [Bool.and_eq_true, beq_iff_eq] at hdp
  rw [hd, uniqueIds_inj hu hdmem hc hdp.1]

theorem mem_replaceById {store : List Car} {old upd : Car}
    (hmem : old ∈ store) (hid : old.id = upd.id) :
    upd ∈ replaceById store upd := by
  unfold replaceById
  exact List.mem_map.mpr ⟨old, hmem, by rw [if_pos hid]⟩

/-- `Math.ceil(t / l)` on exact rationals agrees with the natural
ceiling-division formula, for a positive divisor. -/
theorem natCeil_formula (t l : ℕ) (hl : 0 < l) :
    (t + l - 1) / l = ⌈(t : ℚ) / (l : ℚ)⌉₊ := by
  have hlq : (0 : ℚ) < (l : ℚ) := by exact_mod_cast hl
  apply le_antisymm
  · have hceil : (t : ℚ) ≤ (⌈(t : ℚ) / (l : ℚ)⌉₊ : ℚ) * (l : ℚ) := by
      rw [← div_le_iff₀ hlq]
      exact Nat.le_ceil _
    have hnat : t ≤ ⌈(t : ℚ) / (l : ℚ)⌉₊ * l := by exact_mod_cast hceil
    obtain ⟨k, hk⟩ : ∃ k, ⌈(t : ℚ) / (l : ℚ)⌉₊ * l = k := ⟨_, rfl⟩
    rw [hk] at hnat
    have hlt : t + l - 1 < (⌈(t : ℚ) / (l : ℚ)⌉₊ + 1) * l := by
      have hstep : (⌈(t : ℚ) / (l : ℚ)⌉₊ + 1) * l = k + l := by
        rw [Nat.add_mul, one_mul, hk]
      rw [hstep]
      omega
    exact Nat.lt_succ_iff.mp ((Nat.div_lt_iff_lt_mul hl).mpr hlt)
  · apply Nat.ceil_le.mpr
    rw [div_le_iff₀ hlq]
    have key : t ≤ (t + l - 1) / l * l := by
      have h2 := Nat.div_add_mod (t + l - 1) l
      have h3 : (t + l - 1) % l < l := Nat.mod_lt _ hl
      obtain ⟨m, hm⟩ : ∃ m, l * ((t + l - 1) / l) = m := ⟨_, rfl⟩
      obtain ⟨r, hrr⟩ : ∃ r, (t + l - 1) % l = r := ⟨_, rfl⟩
      rw [hm, hrr] at h2
      rw [hrr] at h3
      rw [Nat.mul_comm, hm]
      omega
    exact_mod_cast key

theorem matchHere_noDot {p : List Char} (hp : '.' ∉ p) (t : List Char) :
    matchHere p t = (p.map lowerChar).isPrefixOf (t.map lowerChar) := by
  induction p generalizing t with
  | nil => simp [matchHere]
  | cons pc ps ih =>
    have hpc : pc ≠ '.' := fun h => hp (h ▸ List.mem_cons_self _ _)
    have hps : '.' ∉ ps := fun h => hp (List.mem_cons_of_mem _ h)
    cases t with
    | nil => rfl
    | cons tc ts =>
      simp only [matchHere, List.map_cons, List.isPrefixOf_cons₂, ih hps]
      unfold tokMatch
      rw [show (pc == '.') = false from beq_eq_false_iff_ne.mpr hpc]
      simp

theorem reSearch_noDot {p : List Char} (hp : '.' ∉ p) (t : List Char) :
    reSearch p t = true ↔ (p.map lowerChar) <:+: (t.map lowerChar) := by
  induction t with
  | nil =>
    simp [reSearch, matchHere_noDot hp, List.isPrefixOf_iff_prefix]
  | cons tc ts ih =>
    simp only [reSearch, Bool.or_eq_true, matchHere_noDot hp,
      List.isPrefixOf_iff_prefix, ih, List.map_cons]
    exact List.infix_cons_iff.symm

theorem reTest_eq_substrCI {pat : String} (hp : '.' ∉ pat.data) (s : String) :
    reTest pat s = substrCI pat s := by
  unfold reTest substrCI
  rw [Bool.eq_iff_iff]
  rw [reSearch_noDot hp]
  simp

/-- Characters allowed in the faithfully modelled search-term fragment:
literal in a JavaScript regex and distinct from the wildcard. -/
def plainTermChar (ch : Char) : Bool :=
  ch.isAlphanum || ch == ' '

theorem plainTerm_no_dot {pat : String}
    (h : pat.data.all plainTermChar = true) : '.' ∉ pat.data := by
  intro hmem
  have := List.all_eq_true.mp h '.' hmem
  simp [plainTermChar] at this

/-! Path-resolution lemmas -/

theorem splitSlash_ne_nil (p : List Char) : splitSlash p ≠ [] := by
  induction p with
  | nil => simp [splitSlash]
  | cons ch rest ih =>
    simp only [splitSlash]
    split
    · simp
    · cases hr : splitSlash rest with
      | nil => simp
      | cons s ss => simp

theorem splitSlash_append (a b : List Char) :
    splitSlash (a ++ '/' :: b) = splitSlash a ++ splitSlash b := by
  induction a with
  | nil => simp [splitSlash]
  | cons c a2 ih =>
    by_cases hc : c = '/'
    · subst hc
      simp [splitSlash, ih]
    · rw [List.cons_append]
      simp only [splitSlash, if_neg hc, ih]
      cases ha : splitSlash a2 with
      | nil => exact absurd ha (splitSlash_ne_nil a2)
      | cons s ss => simp

theorem no_slash_mem_splitSlash {p s : List Char} (h : s ∈ splitSlash p) :
    '/' ∉ s := by
  induction p generalizing s with
  | nil =>
    simp [splitSlash] at h
    subst h
    simp
  | cons c rest ih =>
    simp only [splitSlash] at h
    by_cases hc : c = '/'
    · rw [if_pos hc] at h
      rcases List.mem_cons.mp h with h1 | h2
      · subst h1; simp
      · exact ih h2
    · rw [if_neg hc] at h
      cases hr : splitSlash rest with
      | nil => exact absurd hr (splitSlash_ne_nil rest)
      | cons s0 ss =>
        rw [hr] at h
        rcases List.mem_cons.mp h with h1 | h2
        · subst h1
          intro hmem
          rcases List.mem_cons.mp hmem with h3 | h4
          · exact hc h3.symm
          · have hs0 : s0 ∈ splitSlash rest := by
              rw [hr]; exact List.mem_cons_self _ _
            exact ih hs0 h4
        · have hs : s ∈ splitSlash rest := by
            rw [hr]; exact List.mem_cons_of_mem _ h2
          exact ih hs

theorem splitSlash_of_no_slash {s : List Char} (h : '/' ∉ s) :
    splitSlash s = [s] := by
  induction s with
  | nil => simp [splitSlash]
  | cons c cs ih =>
    have hc : c ≠ '/' := fun e => h (e ▸ List.mem_cons_self _ _)
    have hcs : '/' ∉ cs := fun m => h (List.mem_cons_of_mem _ m)
    simp only [splitSlash, if_neg hc, ih hcs]

theorem basenameL_no_slash (p : List Char) : '/' ∉ basenameL p := by
  unfold basenameL
  cases hg : ((splitSlash p).filter fun s => decide (s ≠ [])).getLast? with
  | none => simp
  | some s =>
    simp only [Option.getD_some]
    have hmem : s ∈ (splitSlash p).filter fun s => decide (s ≠ []) :=
      List.mem_of_mem_getLast? hg
    exact no_slash_mem_splitSlash (List.mem_of_mem_filter hmem)

theorem segStep_ordinary {st : List (List Char)} {s : List Char}
    (hs : ordinarySeg s) : segStep st s = st ++ [s] := by
  unfold segStep
  have h1 : ¬(s = [] ∨ s = ['.']) := by
    rintro (h | h)
    · exact hs.1 h
    · exact hs.2.1 h
  rw [if_neg h1, if_neg hs.2.2.1]

theorem foldl_segStep_ordinary {S : List (List Char)}
    (hS : ∀ s ∈ S, ordinarySeg s) (st : List (List Char)) :
    S.foldl segStep st = st ++ S := by
  induction S generalizing st with
  | nil => simp
  | cons s S2 ih =>
    have hs := hS s (List.mem_cons_self _ _)
    simp only [List.foldl_cons, segStep_ordinary hs]
    rw [ih (fun x hx => hS x (List.mem_cons_of_mem _ hx))]
    simp

theorem renderSegs_concat (S : List (List Char)) (b : List Char) :
    renderSegs (S ++ [b]) = renderSegs S ++ '/' :: b := by
  unfold renderSegs
  rw [List.foldl_append]
  rfl

theorem isPrefixOf_append_self (l r : List Char) :
    l.isPrefixOf (l ++ r) = true := by
  induction l with
  | nil => simp
  | cons a as ih => simp [List.isPrefixOf, ih]

theorem isPrefixOf_length_le {l r : List Char}
    (h : l.isPrefixOf r = true) : l.length ≤ r.length := by
  induction l generalizing r with
  | nil => simp
  | cons a as ih =>
    cases r with
    | nil => simp [List.isPrefixOf] at h
    | cons b bs =>
      simp only [List.isPrefixOf, Bool.and_eq_true] at h
      simp only [List.length_cons]
      exact Nat.succ_le_succ (ih h.2)

theorem splitSlash_renderSegs {S : List (List Char)}
    (hS : ∀ s ∈ S, '/' ∉ s) (h0 : S ≠ []) :
    splitSlash (renderSegs S) = [] :: S := by
  induction S using List.reverseRecOn with
  | nil => exact absurd rfl h0
  | append_singleton S2 b ih =>
    rw [renderSegs_concat]
    by_cases h2 : S2 = []
    · subst h2
      have hb : '/' ∉ b := hS b (by simp)
      have hr0 : renderSegs ([] : List (List Char)) = [] := rfl
      rw [hr0, List.nil_append]
      have hstep : splitSlash ('/' :: b) = [] :: splitSlash b := by
        simp [splitSlash]
      rw [hstep, splitSlash_of_no_slash hb]
      simp
    · have hb : '/' ∉ b :=
        hS b (List.mem_append.mpr (Or.inr (List.mem_cons_self _ _)))
      rw [splitSlash_append,
        ih (fun s hs => hS s (List.mem_append.mpr (Or.inl hs))) h2,
        splitSlash_of_no_slash hb]
      simp

/-- Full characterization of `deleteFile` resolution over a well-formed
uploads root `renderAbs S`: the attempt is either rejected, or aims at the
root itself, or aims at a direct child `root/b` with `b` an ordinary
segment. -/
theorem deleteFile_resolve {S : List (List Char)}
    (hS : ∀ s ∈ S, ordinarySeg s) (h0 : S ≠ []) (idp : List Char) :
    deleteFile (renderAbs S) idp = none ∨
    deleteFile (renderAbs S) idp = some (renderAbs S) ∨
    ∃ b, ordinarySeg b ∧
      deleteFile (renderAbs S) idp = some (renderAbs S ++ '/' :: b) := by
  have hroot : renderAbs S = renderSegs S := by
    unfold renderAbs
    rw [if_neg h0]
  have hnos : '/' ∉ basenameL idp := basenameL_no_slash idp
  have hsplit : splitSlash (renderSegs S ++ '/' :: basenameL idp)
      = ([] :: S) ++ [basenameL idp] := by
    rw [splitSlash_append,
      splitSlash_renderSegs (fun s hs => (hS s hs).2.2.2) h0,
      splitSlash_of_no_slash hnos]
  have hnorm : normSegs (([] :: S) ++ [basenameL idp])
      = segStep S (basenameL idp) := by
    unfold normSegs
    rw [List.foldl_append]
    have hin : List.foldl segStep [] ([] :: S) = S := by
      rw [List.foldl_cons]
      have h1 : segStep ([] : List (List Char)) ([] : List Char) = [] := by
        simp [segStep]
      rw [h1, foldl_segStep_ordinary hS]
      simp
    rw [hin, List.foldl_cons, List.foldl_nil]
  have hfull : joinNorm (renderAbs S) (basenameL idp)
      = renderAbs (segStep S (basenameL idp)) := by
    unfold joinNorm
    rw [hroot, hsplit, hnorm]
  simp only [deleteFile]
  rw [hfull]
  by_cases hsafe1 : basenameL idp = [] ∨ basenameL idp = ['.']
  · have hseg : segStep S (basenameL idp) = S := by
      unfold segStep
      rw [if_pos hsafe1]
    rw [hseg]
    have hg : (renderAbs S).isPrefixOf (renderAbs S) = true := by
      have h2 := isPrefixOf_append_self (renderAbs S) []
      rwa [List.append_nil] at h2
    rw [if_pos hg]
    exact Or.inr (Or.inl rfl)
  · push_neg at hsafe1
    by_cases hsafe2 : basenameL idp = ['.', '.']
    · have hseg : segStep S (basenameL idp) = S.dropLast := by
        unfold segStep
        rw [if_neg, if_pos hsafe2]
        rintro (h | h)
        · exact hsafe1.1 h
        · exact hsafe1.2 h
      rw [hseg]
      have hlen : (renderAbs S.dropLast).length < (renderAbs S).length := by
        rcases (List.eq_nil_or_concat S).resolve_left h0 with ⟨L, b, hLb⟩
        rw [List.concat_eq_append] at hLb
        subst hLb
        rw [List.dropLast_concat]
        have hbne : b ≠ [] :=
          (hS b (List.mem_append.mpr (Or.inr (List.mem_cons_self _ _)))).1
        have hb1 : 1 ≤ b.length := List.length_pos.mpr hbne
        by_cases hL : L = []
        · subst hL
          simp [renderAbs, renderSegs]
          omega
        · rw [show renderAbs L = renderSegs L from by
              unfold renderAbs; rw [if_neg hL],
            show renderAbs (L ++ [b]) = renderSegs (L ++ [b]) from by
              unfold renderAbs; rw [if_neg (by simp)]]
          rw [renderSegs_concat]
          simp
      have hg : ¬((renderAbs S).isPrefixOf (renderAbs S.dropLast) = true) := by
        intro h
        exact absurd (isPrefixOf_length_le h) (by omega)
      rw [if_neg hg]
      exact Or.inl rfl
    · have hord : ordinarySeg (basenameL idp) :=
        ⟨hsafe1.1, hsafe1.2, hsafe2, hnos⟩
      rw [segStep_ordinary hord]
      have hne : S ++ [basenameL idp] ≠ [] := by simp
      have hra : renderAbs (S ++ [basenameL idp])
          = renderSegs S ++ '/' :: basenameL idp := by
        unfold renderAbs
        rw [if_neg hne, renderSegs_concat]
      rw [hra, hroot, if_pos (isPrefixOf_append_self _ _)]
      exact Or.inr (Or.inr ⟨basenameL idp, hord, rfl⟩)

theorem matchesQuery_fields {f : CarFilters} {c : Car}
    (h : matchesQuery f c = true) :
    c.isDeleted = false ∧
    (∀ a, f.minPrecio = some a → a ≤ c.precio) ∧
    (∀ b, f.maxPrecio = some b → c.precio ≤ b) := by
  unfold matchesQuery at h
  simp only [Bool.and_eq_true] at h
  obtain ⟨⟨⟨⟨⟨⟨h1, _⟩, _⟩, _⟩, h5⟩, h6⟩, _⟩ := h
  refine ⟨by simpa using h1, ?_, ?_⟩
  · intro a ha
    rw [ha] at h5
    simpa using h5
  · intro b hb
    rw [hb] at h6
    simpa using h6

theorem mem_getAllCars_matches {f : CarFilters} {store : List Car} {c : Car}
    (h : c ∈ (getAllCars f store).data) : matchesQuery f c = true := by
  simp only [getAllCars] at h
  have h1 := mem_sortCars.mp (List.mem_of_mem_drop (List.mem_of_mem_take h))
  exact (List.mem_filter.mp h1).2

/-! ## Claim theorems -/

/-- Claim C1: a record with `isDeleted = true` never appears in the results
of List (`getAllCars`), Search (`searchCars`), or Get-by-id (`getCarById`),
and Update (`updateCar`) or a second Soft delete (`deleteCar`) on its id
fails with the not-found error - the second delete is an error, not a
no-op. -/
theorem c1_soft_deleted_invisible (store : List Car) (c : Car)
    (hu : uniqueIds store) (hc : c ∈ store) (hdel : c.isDeleted = true) :
    (∀ f, c ∉ (getAllCars f store).data) ∧
    (∀ term, c ∉ searchCars term store) ∧
    getCarById c.id store = .error notFoundMsg ∧
    (∀ d tU tS ok, updateCar c.id d tU tS ok store = .error notFoundMsg) ∧
    (∀ t1 t2 t3, deleteCar c.id t1 t2 t3 store = .error notFoundMsg) := by
  have hfa : findActive c.id store = none := findActive_eq_none hu hc hdel
  refine ⟨?_, ?_, ?_, ?_, ?_⟩
  · intro f hmem
    have hact := (matchesQuery_fields (mem_getAllCars_matches hmem)).1
    rw [hdel] at hact
    exact Bool.true_eq_false ▸ hact
  · intro term hmem
    have h1 := mem_sortCars.mp (List.mem_of_mem_take hmem)
    have h2 := (List.mem_filter.mp h1).2
    rw [hdel] at h2
    simp at h2
  · unfold getCarById
    rw [hfa]
  · intro d tU tS ok
    unfold updateCar
    rw [hfa]
  · intro t1 t2 t3
    unfold deleteCar
    rw [hfa]

/-- Witness for C1: concrete soft-deleted record, concrete operations. -/
theorem c1_soft_deleted_invisible_witness :
    uniqueIds [c1DeletedCar] ∧ c1DeletedCar ∈ [c1DeletedCar] ∧
    c1DeletedCar.isDeleted = true ∧
    c1DeletedCar ∉ (getAllCars {} [c1DeletedCar]).data ∧
    c1DeletedCar ∉ searchCars "Honda" [c1DeletedCar] ∧
    getCarById c1DeletedCar.id [c1DeletedCar] = .error notFoundMsg ∧
    updateCar c1DeletedCar.id {} 1 2 true [c1DeletedCar] = .error notFoundMsg ∧
    deleteCar c1DeletedCar.id 1 2 3 [c1DeletedCar] = .error notFoundMsg := by
  have h := c1_soft_deleted_invisible [c1DeletedCar] c1DeletedCar
    (by decide) (by decide) (by decide)
  exact ⟨by decide, by decide, by decide, h.1 {}, h.2.1 "Honda", h.2.2.1,
    h.2.2.2.1 {} 1 2 true, h.2.2.2.2 1 2 3⟩

/-- Claim C2 (amended): immediately after a successful soft delete the
persisted record has `isDeleted = true`, `deletedAt` stamped with the
deletion-time clock reading, and `lastModified` stamped with the (later)
pre-save re-stamp reading; under a monotone clock the stored `deletedAt` is
LESS THAN OR EQUAL to the stored `lastModified`, with equality exactly when
the readings coincide.  (The claim asserts `deletedAt >= lastModified`; the
source stamps `fechaEliminacion` first and re-stamps `fechaModificacion` in
the pre-save hook, so the inequality runs the other way.) -/
theorem c2_soft_delete_stamps (store : List Car) (id tDel tMod tSave : Nat)
    (h1 : tDel ≤ tMod) (h2 : tMod ≤ tSave) (o : MutOutcome)
    (h : deleteCar id tDel tMod tSave store = .ok o) :
    o.car.isDeleted = true ∧
    o.car.fechaEliminacion = some tDel ∧
    o.car.fechaModificacion = tSave ∧
    (∀ t, o.car.fechaEliminacion = some t → t ≤ o.car.fechaModificacion) ∧
    (tDel = tSave → o.car.fechaEliminacion = some o.car.fechaModificacion) ∧
    o.car ∈ o.store := by
  cases hfa : findActive id store with
  | none => simp [deleteCar, hfa] at h
  | some car =>
    simp only [deleteCar, hfa, Except.ok.injEq] at h
    subst h
    refine ⟨rfl, rfl, rfl, ?_, ?_, ?_⟩
    · intro t ht
      have : tDel = t := by simpa using ht
      subst this
      simpa using le_trans h1 h2
    · intro he
      simpa using congrArg some he
    · exact mem_replaceById (List.mem_of_find?_eq_some hfa) rfl

/-- Counterexample to claim C2: with monotone clock readings `0, 0, 1`, the
soft-deleted record stores `deletedAt = 0` and `lastModified = 1`, so the
claimed `deletedAt = lastModified = now()` and the claimed
`deletedAt >= lastModified` both fail. -/
theorem c2_counterexample :
    (deleteCar baseCar.id 0 0 1 [baseCar]).toOption.map
      (fun o => (o.car.isDeleted, o.car.fechaEliminacion, o.car.fechaModificacion))
      = some (true, some 0, 1) ∧
    ((some 0 : Option Nat) ≠ some 1) ∧
    ¬((1 : Nat) ≤ 0) := by decide

/-- Witness for C2 at coinciding clock readings. -/
theorem c2_soft_delete_stamps_witness :
    (0 : Nat) ≤ 0 ∧
    deleteCar 1 0 0 0 [baseCar] = Except.ok c2Outcome ∧
    c2Outcome.car.isDeleted = true ∧
    c2Outcome.car.fechaEliminacion = some 0 ∧
    c2Outcome.car.fechaModificacion = 0 ∧
    c2Outcome.car ∈ c2Outcome.store := by
  have h := c2_soft_delete_stamps [baseCar] 1 0 0 0 le_rfl le_rfl c2Outcome
    (by decide)
  exact ⟨le_rfl, by decide, h.1, h.2.1, h.2.2.1, h.2.2.2.2.2⟩

/-- Claim C3 (amended): soft delete performs NO asset cleanup - a successful
`deleteCar` never attempts a `deleteFile` call (the record stays in the store
and keeps its photo reference); photo-asset cleanup is performed by the hard
delete, which attempts deletion of the found record's truthy photo. -/
theorem c3_soft_delete_no_asset_cleanup :
    (∀ id t1 t2 t3 store o,
      deleteCar id t1 t2 t3 store = .ok o → o.attempts = []) ∧
    (∀ id store c f, store.find? (fun x => x.id == id) = some c →
      optStr c.foto = some f →
      (hardDeleteCar id store).toOption.map Prod.snd = some [f]) := by
  constructor
  · intro id t1 t2 t3 store o h
    cases hfa : findActive id store with
    | none => simp [deleteCar, hfa] at h
    | some car =>
      simp only [deleteCar, hfa, Except.ok.injEq] at h
      subst h
      rfl
  · intro id store c f hfind hfoto
    simp only [hardDeleteCar, hfind, hfoto]
    rfl

/-- Counterexample to claim C3: soft deleting an active record that holds
photo `a.jpg` succeeds with an EMPTY list of asset-deletion attempts - no
deletion attempt is made against the photo. -/
theorem c3_counterexample :
    (deleteCar 1 0 0 0 [c3PhotoCar]).toOption.map (fun o => o.attempts)
      = some [] ∧
    c3PhotoCar.foto = some "a.jpg" ∧
    "a.jpg" ∉ ([] : List String) := by decide

/-- Witness for C3: the soft delete of the photo-holding record attempts
nothing; the hard delete attempts exactly the photo. -/
theorem c3_soft_delete_no_asset_cleanup_witness :
    deleteCar 1 0 0 0 [c3PhotoCar] = Except.ok c3Outcome ∧
    c3Outcome.attempts = [] ∧
    [c3PhotoCar].find? (fun x => x.id == 1) = some c3PhotoCar ∧
    optStr c3PhotoCar.foto = some "a.jpg" ∧
    (hardDeleteCar 1 [c3PhotoCar]).toOption.map Prod.snd = some ["a.jpg"] := by
  have h := c3_soft_delete_no_asset_cleanup
  exact ⟨by decide, h.1 1 0 0 0 [c3PhotoCar] c3Outcome (by decide),
    by decide, by decide,
    h.2 1 [c3PhotoCar] c3PhotoCar "a.jpg" (by decide) (by decide)⟩

/-- Claim C4: for a List call with effective page `p >= 1` (default 1) and
limit `l >= 1` (default 10), the returned window is the slice of the sorted
matching sequence starting at offset `(p-1)*l`, holds at most `l` records,
and the metadata reports the same `p` and `l`, `total` equal to the count of
records matching the same predicate, and `totalPages` equal to the rational
ceiling of `total / l`. -/
theorem c4_pagination (f : CarFilters) (store : List Car)
    (_hp : 1 ≤ f.page.getD 1) (hl : 1 ≤ f.limit.getD 10) :
    (getAllCars f store).data =
      ((sortCars (carLe (f.sortBy.getD "fechaAlta") (f.sortOrder.getD "desc"))
        (store.filter (matchesQuery f))).drop
          ((f.page.getD 1 - 1) * f.limit.getD 10)).take (f.limit.getD 10) ∧
    (getAllCars f store).data.length ≤ f.limit.getD 10 ∧
    (getAllCars f store).pagination.page = f.page.getD 1 ∧
    (getAllCars f store).pagination.limit = f.limit.getD 10 ∧
    (getAllCars f store).pagination.total
      = (store.filter (matchesQuery f)).length ∧
    (getAllCars f store).pagination.totalPages
      = ⌈((store.filter (matchesQuery f)).length : ℚ)
          / (f.limit.getD 10 : ℚ)⌉₊ := by
  refine ⟨rfl, ?_, rfl, rfl, rfl, ?_⟩
  · exact List.length_take_le _ _
  · exact natCeil_formula _ _ hl

/-- Witness for C4 at the spec scenario: 3 matching records, page 1,
limit 2. -/
theorem c4_pagination_witness :
    1 ≤ c4Filters.page.getD 1 ∧ 1 ≤ c4Filters.limit.getD 10 ∧
    (getAllCars c4Filters c4Store).data.length ≤ c4Filters.limit.getD 10 ∧
    (getAllCars c4Filters c4Store).pagination.page = c4Filters.page.getD 1 ∧
    (getAllCars c4Filters c4Store).pagination.limit
      = c4Filters.limit.getD 10 ∧
    (getAllCars c4Filters c4Store).pagination.total
      = (c4Store.filter (matchesQuery c4Filters)).length ∧
    (getAllCars c4Filters c4Store).pagination.totalPages
      = ⌈((c4Store.filter (matchesQuery c4Filters)).length : ℚ)
          / (c4Filters.limit.getD 10 : ℚ)⌉₊ ∧
    (getAllCars c4Filters c4Store).data.length = 2 ∧
    (getAllCars c4Filters c4Store).pagination.total = 3 ∧
    (getAllCars c4Filters c4Store).pagination.totalPages = 2 := by
  have h := c4_pagination c4Filters c4Store (by decide) (by decide)
  exact ⟨by decide, by decide, h.2.1, h.2.2.1, h.2.2.2.1, h.2.2.2.2.1,
    h.2.2.2.2.2, by decide, by decide, by decide⟩

/-- Claim C5: in the List query builder, a supplied `minPrecio` bounds every
returned record's price from below (inclusive) and a supplied `maxPrecio`
bounds it from above (inclusive); both together restrict to the closed
interval; with neither supplied the predicate contains no price clause at
all - it is invariant under changing a record's price. -/
theorem c5_price_range (f : CarFilters) (store : List Car) :
    (∀ a c, f.minPrecio = some a →
      c ∈ (getAllCars f store).data → a ≤ c.precio) ∧
    (∀ b c, f.maxPrecio = some b →
      c ∈ (getAllCars f store).data → c.precio ≤ b) ∧
    (∀ a b c, f.minPrecio = some a → f.maxPrecio = some b →
      c ∈ (getAllCars f store).data → a ≤ c.precio ∧ c.precio ≤ b) ∧
    (f.minPrecio = none → f.maxPrecio = none →
      ∀ c p, matchesQuery f { c with precio := p } = matchesQuery f c) := by
  refine ⟨?_, ?_, ?_, ?_⟩
  · intro a c ha hmem
    exact (matchesQuery_fields (mem_getAllCars_matches hmem)).2.1 a ha
  · intro b c hb hmem
    exact (matchesQuery_fields (mem_getAllCars_matches hmem)).2.2 b hb
  · intro a b c ha hb hmem
    exact ⟨(matchesQuery_fields (mem_getAllCars_matches hmem)).2.1 a ha,
      (matchesQuery_fields (mem_getAllCars_matches hmem)).2.2 b hb⟩
  · intro hmin hmax c p
    unfold matchesQuery
    rw [hmin, hmax]

/-- Witness for C5: inclusive boundaries `250000` and `280000` are both
returned; with no price filter the predicate ignores the price. -/
theorem c5_price_range_witness :
    c5Filters.minPrecio = some 250000 ∧
    c5Filters.maxPrecio = some 280000 ∧
    baseCar ∈ (getAllCars c5Filters c4Store).data ∧
    carB ∈ (getAllCars c5Filters c4Store).data ∧
    carC ∉ (getAllCars c5Filters c4Store).data ∧
    (250000 : Int) ≤ baseCar.precio ∧ baseCar.precio ≤ 280000 ∧
    (250000 : Int) ≤ carB.precio ∧ carB.precio ≤ 280000 ∧
    matchesQuery {} { baseCar with precio := 999999999 }
      = matchesQuery {} baseCar := by
  have h := c5_price_range c5Filters c4Store
  have hbase := h.2.2.1 250000 280000 baseCar rfl rfl (by decide)
  have hcarB := h.2.2.1 250000 280000 carB rfl rfl (by decide)
  have hind := (c5_price_range {} c4Store).2.2.2 rfl rfl baseCar 999999999
  exact ⟨rfl, rfl, by decide, by decide, by decide, hbase.1, hbase.2,
    hcarB.1, hcarB.2, hind⟩

/-- Claim C6 (amended): Search treats the term as a case-insensitive REGEX
pattern, not a literal substring.  For terms made of plain characters
(alphanumeric or space - literal in a regex), the regex semantics coincides
with the substring description, so Search returns exactly the active records
whose brand, model, or color contains the term as a case-insensitive
substring, OR-combined, ordered by creation time descending and capped at 20
(`searchSpecList`); the 20-record cap holds for every term.  A non-matching
term yields the empty list, not an error. -/
theorem c6_search_substring (term : String) (store : List Car)
    (hterm : term.data.all plainTermChar = true) :
    searchCars term store = searchSpecList term store ∧
    (searchCars term store).length ≤ 20 := by
  have hp : '.' ∉ term.data := plainTerm_no_dot hterm
  constructor
  · have hfe : (store.filter fun c => !c.isDeleted && searchMatch term c)
        = store.filter fun c => !c.isDeleted &&
            (substrCI term c.marca || substrCI term c.modelo ||
              (match c.color with
               | some col => substrCI term col
               | none => false)) := by
      apply List.filter_congr
      intro c _
      unfold searchMatch
      rw [reTest_eq_substrCI hp, reTest_eq_substrCI hp]
      cases hc : c.color with
      | none => rfl
      | some col => simp only [reTest_eq_substrCI hp]
    unfold searchCars searchSpecList
    rw [hfe]
  · unfold searchCars
    exact List.length_take_le _ _

/-- Counterexample to claim C6: the term `.` is a regex wildcard - Search
returns the Honda record although `.` is not a case-insensitive substring of
its brand or model (and it has no color), so the result differs from the
substring description. -/
theorem c6_counterexample :
    searchCars "." [c6Car] = [c6Car] ∧
    substrCI "." c6Car.marca = false ∧
    substrCI "." c6Car.modelo = false ∧
    c6Car.color = none ∧
    searchSpecList "." [c6Car] = [] ∧
    searchCars "." [c6Car] ≠ searchSpecList "." [c6Car] := by decide

/-- Witness for C6 on a plain term, including the non-matching-term case
returning the empty list. -/
theorem c6_search_substring_witness :
    "honda".data.all plainTermChar = true ∧
    searchCars "honda" [baseCar] = searchSpecList "honda" [baseCar] ∧
    (searchCars "honda" [baseCar]).length ≤ 20 ∧
    searchCars "honda" [baseCar] = [baseCar] ∧
    searchCars "ferrari" [baseCar] = [] := by
  have h := c6_search_substring "honda" [baseCar] (by decide)
  exact ⟨by decide, h.1, h.2, by decide, by decide⟩

/-- Claim C7: Stats reports `total` = count of all records, `deleted` =
count of soft-deleted records, `active = total - deleted` (with
`deleted + active = total`), and averages taken only over the active
records; with zero active records both averages are `0`. -/
theorem c7_stats (store : List Car) :
    (getStats store).total = store.length ∧
    (getStats store).deleted = (store.filter fun c => c.isDeleted).length ∧
    (getStats store).active
      = (getStats store).total - (getStats store).deleted ∧
    (getStats store).deleted + (getStats store).active
      = (getStats store).total ∧
    ((store.filter fun c => !c.isDeleted) = [] →
      (getStats store).averagePrice = 0 ∧ (getStats store).averageKm = 0) ∧
    ((store.filter fun c => !c.isDeleted) ≠ [] →
      (getStats store).averagePrice
        = ((store.filter fun c => !c.isDeleted).map
            fun c => (c.precio : ℚ)).sum
          / (((store.filter fun c => !c.isDeleted)).length : ℚ) ∧
      (getStats store).averageKm
        = ((store.filter fun c => !c.isDeleted).map
            fun c => (c.kilometraje : ℚ)).sum
          / (((store.filter fun c => !c.isDeleted)).length : ℚ)) := by
  refine ⟨rfl, rfl, rfl, ?_, ?_, ?_⟩
  · have hle : (store.filter fun c => c.isDeleted).length ≤ store.length :=
      List.length_filter_le _ _
    simp only [getStats]
    omega
  · intro h
    simp only [getStats, h]
    simp
  · intro h
    have hlen : ¬((store.filter fun c => !c.isDeleted).length = 0) := by
      simpa [List.length_eq_zero] using h
    simp only [getStats, if_neg hlen]
    simp

/-- Witness for C7: a store whose only record is soft-deleted has one total,
one deleted, zero active records and both averages equal to `0`. -/
theorem c7_stats_witness :
    ([c1DeletedCar].filter fun c => !c.isDeleted) = [] ∧
    (getStats [c1DeletedCar]).averagePrice = 0 ∧
    (getStats [c1DeletedCar]).averageKm = 0 ∧
    (getStats [c1DeletedCar]).total = 1 ∧
    (getStats [c1DeletedCar]).deleted = 1 ∧
    (getStats [c1DeletedCar]).active = 0 := by
  have h := (c7_stats [c1DeletedCar]).2.2.2.2.1 (by decide)
  exact ⟨by decide, h.1, h.2, by decide, by decide, by decide⟩

/-- Claim C8: updating an active record holding photo `A` with an input
carrying a different photo `B` succeeds, the persisted record holds `B`, a
deletion attempt is made against asset `A`, and the outcome is identical
whether or not that asset deletion succeeds (`deleteOk`), because the call
is wrapped in a swallowing catch. -/
theorem c8_update_photo_replacement (store : List Car) (c : Car)
    (hu : uniqueIds store) (hc : c ∈ store) (hact : c.isDeleted = false)
    (A B : String) (hA : c.foto = some A) (hA0 : A ≠ "")
    (d : UpdateCarDTO) (hB : d.foto = some B) (hB0 : B ≠ "") (hBA : B ≠ A)
    (tU tS : Nat) (delOk : Bool) :
    updateCar c.id d tU tS delOk store = updateCar c.id d tU tS true store ∧
    ∃ o, updateCar c.id d tU tS delOk store = .ok o ∧
      o.car.foto = some B ∧ o.attempts = [A] ∧ o.car ∈ o.store := by
  have hfa : findActive c.id store = some c := findActive_eq_some hu hc hact
  constructor
  · simp only [updateCar, hfa]
  · cases hup : updateCar c.id d tU tS delOk store with
    | error e => simp [updateCar, hfa] at hup
    | ok o =>
      have hcopy := hup
      simp only [updateCar, hfa, Except.ok.injEq] at hcopy
      subst hcopy
      refine ⟨_, rfl, ?_, ?_, ?_⟩
      · simp [applyAssign, hB]
      · rw [hB, hA]
        simp [optStr, hB0, hA0, hBA]
      · exact mem_replaceById hc rfl

/-- Witness for C8: the concrete record with photo `a.jpg` updated to
`b.jpg` while the asset deletion fails (`delOk = false`). -/
theorem c8_update_photo_replacement_witness :
    uniqueIds [c3PhotoCar] ∧ c3PhotoCar ∈ [c3PhotoCar] ∧
    c3PhotoCar.foto = some "a.jpg" ∧ c8DTO.foto = some "b.jpg" ∧
    updateCar 1 c8DTO 1 2 false [c3PhotoCar]
      = updateCar 1 c8DTO 1 2 true [c3PhotoCar] ∧
    updateCar 1 c8DTO 1 2 false [c3PhotoCar] = Except.ok c8Outcome ∧
    c8Outcome.car.foto = some "b.jpg" ∧
    c8Outcome.attempts = ["a.jpg"] ∧
    c8Outcome.car ∈ c8Outcome.store := by
  have h := c8_update_photo_replacement [c3PhotoCar] c3PhotoCar
    (by decide) (by decide) (by decide) "a.jpg" "b.jpg" (by decide)
    (by decide) c8DTO (by decide) (by decide) (by decide) 1 2 false
  exact ⟨by decide, by decide, by decide, by decide, h.1, by decide,
    by decide, by decide, by decide⟩

/-- Claim C9 (amended): `createCar` stamps `isDeleted = false`,
`createdAt = tAlta` and `lastModified = tMod` server-side, overriding any
values the input carries for those three fields (the stamps are written
after the spread); under a monotone clock `createdAt <= lastModified`, with
equality exactly when the two readings coincide - not guaranteed equal.
`deletedAt` is `null` PROVIDED the input carries no `deletedAt` key: that
field is not re-stamped, so an input-supplied value would survive. -/
theorem c9_create_stamps (d : CreateCarDTO) (userId : Option String)
    (tA tM : Nat) (nid : Nat) (store : List Car)
    (hEl : d.fechaEliminacion = none) (ht : tA ≤ tM) :
    (createCar d userId tA tM nid store).1.isDeleted = false ∧
    (createCar d userId tA tM nid store).1.fechaAlta = tA ∧
    (createCar d userId tA tM nid store).1.fechaModificacion = tM ∧
    (createCar d userId tA tM nid store).1.fechaAlta
      ≤ (createCar d userId tA tM nid store).1.fechaModificacion ∧
    (createCar d userId tA tM nid store).1.fechaEliminacion = none ∧
    (createCar d userId tA tM nid store).1
      ∈ (createCar d userId tA tM nid store).2 ∧
    (∀ b oA oM,
      createCar { d with isDeleted := b, fechaAlta := oA, fechaModificacion := oM } userId tA tM nid store
        = createCar d userId tA tM nid store) := by
  refine ⟨rfl, rfl, rfl, ht, ?_, ?_, ?_⟩
  · show d.fechaEliminacion = none
    exact hEl
  · show (createCar d userId tA tM nid store).1 ∈ store ++ [_]
    simp [createCar]
  · intro b oA oM
    rfl

/-- Counterexample to claim C9: with monotone clock readings `0` then `1`
and a raw input carrying `deletedAt = 7` (and lifecycle keys `99`, `98`,
`isDeleted = true`), the stored record has `createdAt = 0` different from
`lastModified = 1`, and `deletedAt = 7`, not `null` - the `deletedAt` value
carried by the input survives the spread. -/
theorem c9_counterexample :
    (createCar c9BadDTO none 0 1 5 []).1.fechaAlta = 0 ∧
    (createCar c9BadDTO none 0 1 5 []).1.fechaModificacion = 1 ∧
    (createCar c9BadDTO none 0 1 5 []).1.fechaAlta
      ≠ (createCar c9BadDTO none 0 1 5 []).1.fechaModificacion ∧
    (createCar c9BadDTO none 0 1 5 []).1.isDeleted = false ∧
    (createCar c9BadDTO none 0 1 5 []).1.fechaEliminacion = some 7 ∧
    (createCar c9BadDTO none 0 1 5 []).1.fechaEliminacion ≠ none := by
  decide

/-- Witness for C9 at coinciding clock readings and a clean input. -/
theorem c9_create_stamps_witness :
    baseDTO.fechaEliminacion = none ∧ (0 : Nat) ≤ 0 ∧
    (createCar baseDTO none 0 0 5 []).1.isDeleted = false ∧
    (createCar baseDTO none 0 0 5 []).1.fechaAlta = 0 ∧
    (createCar baseDTO none 0 0 5 []).1.fechaModificacion = 0 ∧
    (createCar baseDTO none 0 0 5 []).1.fechaEliminacion = none ∧
    (createCar baseDTO none 0 0 5 []).1 ∈ (createCar baseDTO none 0 0 5 []).2 ∧
    createCar { baseDTO with isDeleted := some true, fechaAlta := some 4, fechaModificacion := some 9 } none 0 0 5 []
      = createCar baseDTO none 0 0 5 [] := by
  have h := c9_create_stamps baseDTO none 0 0 5 [] rfl le_rfl
  exact ⟨rfl, le_rfl, h.1, h.2.1, h.2.2.1, h.2.2.2.2.1, h.2.2.2.2.2.1,
    h.2.2.2.2.2.2 (some true) (some 4) (some 9)⟩

/-- Claim C10 (amended): `deleteFile` reduces the identifier to its base
filename and validates the resolved path against the asset root, but an
identifier containing directory-traversal sequences is NOT rejected - its
basename is resolved inside the root and the deletion proceeds there.  The
safety conclusion holds: every performed deletion attempt targets the root
itself or a direct child of the root (an ordinary single segment under it),
never a file outside the asset root. -/
theorem c10_path_containment {S : List (List Char)}
    (hS : ∀ s ∈ S, ordinarySeg s) (h0 : S ≠ [])
    (idp target : List Char)
    (h : deleteFile (renderAbs S) idp = some target) :
    target = renderAbs S ∨
    ∃ b, ordinarySeg b ∧ target = renderAbs S ++ '/' :: b := by
  rcases deleteFile_resolve hS h0 idp with hnone | hroot | ⟨b, hb, hsome⟩
  · rw [h] at hnone
    exact absurd hnone (by simp)
  · rw [h] at hroot
    injection hroot with he
    exact Or.inl he
  · rw [h] at hsome
    injection hsome with he
    exact Or.inr ⟨b, hb, he⟩

/-- Counterexample to claim C10: the identifier `../../etc/passwd` carries
traversal sequences yet is not rejected - resolution succeeds and the
deletion attempt targets `/app/uploads/passwd`, a path inside the root (not
the system file `/etc/passwd`). -/
theorem c10_counterexample :
    deleteFile ("/app/uploads".data) ("../../etc/passwd".data)
      = some ("/app/uploads/passwd".data) ∧
    "/app/uploads/passwd".data ≠ "/etc/passwd".data := by decide

/-- Witness for C10: concrete root `/app/uploads` and traversal identifier
`../../x.jpg`, resolved to the in-root child `x.jpg`. -/
theorem c10_path_containment_witness :
    (∀ s ∈ c10Root, ordinarySeg s) ∧ c10Root ≠ [] ∧
    deleteFile (renderAbs c10Root) ("../../x.jpg".data)
      = some (renderAbs c10Root ++ '/' :: ("x.jpg".data)) ∧
    (renderAbs c10Root ++ '/' :: ("x.jpg".data) = renderAbs c10Root ∨
      ∃ b, ordinarySeg b ∧
        renderAbs c10Root ++ '/' :: ("x.jpg".data)
          = renderAbs c10Root ++ '/' :: b) := by
  refine ⟨by decide, by decide, by decide, ?_⟩
  exact c10_path_containment (by decide) (by decide) ("../../x.jpg".data) _
    (by decide)
